import Mathlib

/-!
Verification of the WildMidi audio-output backend layer
(out_dossb.c, out_dart.c, out_alsa.c) against its specification.

The file is organised as: first the shallow embeddings of the C
functions (each definition names the function and file it embeds),
then the theorems settling the specification claims about them.
-/

set_option maxHeartbeats 1000000

namespace WildMidi

/-! # Definitions -/

/-! ## Legacy DMA (SoundBlaster) backend: `write_sb_common` (out_dossb.c)

The C routine copies from `data` into the circular DMA buffer
`sb.dma_buff->linear` of `dma_size` bytes, between the tracked write tail
`buff_tail` and the (256-byte aligned) observed hardware read position
`dma_pos`.  We record each `memcpy` as a pair (destination offset, length)
instead of mutating a byte array, which is all the safety claim needs. -/

/-- Result of one `write_sb_common` call: the list of `memcpy` spans
(destination offset into the DMA buffer, byte count), the updated
`buff_tail`, and the C return value `cnt`. -/
structure SBResult where
  spans : List (Nat × Nat)
  newTail : Nat
  ret : Nat
deriving DecidableEq

/-- Shallow embedding of `write_sb_common` (out_dossb.c lines 44-86).
`dma_pos0` is the raw position reported by `sb_query_dma`; the code rounds
it down to a 256-byte boundary (`dma_pos &= ~255`).  `siz` is the byte
count offered by the caller (an `int` compared as `unsigned int`; callers
pass nonnegative sizes). -/
def write_sb_common (buff_tail dma_size dma_pos0 siz : Nat) : SBResult :=
  let dma_pos := dma_pos0 / 256 * 256
  if buff_tail = dma_pos then ⟨[], buff_tail, 0⟩
  else if dma_pos > buff_tail then
    -- `if ((cnt = dma_pos - buff_tail) > siz) cnt = siz;`
    let cnt := min (dma_pos - buff_tail) siz
    let bt := buff_tail + cnt
    ⟨[(buff_tail, cnt)], if bt ≥ dma_size then 0 else bt, cnt⟩
  else
    -- wrapped around: `if ((cnt = dma_size - buff_tail) > siz) cnt = siz;`
    let cnt := min (dma_size - buff_tail) siz
    let siz2 := siz - cnt
    if siz2 = 0 then ⟨[(buff_tail, cnt)], buff_tail + cnt, cnt⟩
    else
      -- then fill from the buffer beginning: `if (dma_pos > siz) dma_pos = siz;`
      let d := min dma_pos siz2
      ⟨[(buff_tail, cnt), (0, d)], d, cnt + d⟩

/-- The free span between the write tail and the read position, as the
specification defines it: `dma_pos - buff_tail` when the read position is
ahead of the tail, and `(dma_size - buff_tail) + dma_pos` in the wrapped
case. -/
def sbFreeSpan (buff_tail dma_size dma_pos : Nat) : Nat :=
  if dma_pos > buff_tail then dma_pos - buff_tail
  else dma_size - buff_tail + dma_pos

/-- Offset `a` lies in the unread (not yet played) region
`[dma_pos, buff_tail)` taken modulo `dma_size`. -/
def sbUnread (buff_tail dma_size dma_pos a : Nat) : Prop :=
  if dma_pos ≤ buff_tail then dma_pos ≤ a ∧ a < buff_tail
  else (dma_pos ≤ a ∧ a < dma_size) ∨ a < buff_tail

instance (bt ds dp a : Nat) : Decidable (sbUnread bt ds dp a) := by
  unfold sbUnread; infer_instance

/-! ## Legacy DMA backend: in-place format conversion in `write_sb_output`
(out_dossb.c lines 88-113)

The caller's buffer is modelled as a total byte map `Nat → Int` (the C
code's flat view of memory); `int16_t` samples are read little-endian.
The conversion loops run in place (`src` and `dst` alias the same buffer),
so the embedding performs the same sequence of single-byte stores the C
code does, and the aliasing safety (reads always see original data) is
proved, not assumed.  Note the C loops `i = (siz /= 2); for (; i >= 0; --i)`
run `siz/2 + 1` times (resp. `siz/4 + 1`), one more than the effective
output size `siz/2` (resp. `siz/4`) that is then passed on to
`write_sb_common`. -/

/-- Store byte value `v` at offset `j`. -/
def writeByte (mem : Nat → Int) (j : Nat) (v : Int) : Nat → Int :=
  fun a => if a = j then v else mem a

/-- Signed 16-bit (two's complement, little-endian) read of sample `k`,
i.e. of bytes `2k` and `2k+1`. -/
def readS16 (mem : Nat → Int) (k : Nat) : Int :=
  if mem (2 * k) + 256 * mem (2 * k + 1) < 32768 then
    mem (2 * k) + 256 * mem (2 * k + 1)
  else
    mem (2 * k) + 256 * mem (2 * k + 1) - 65536

/-- `(*src >> 8) + 128` stored into a `uint8_t`: arithmetic right shift
(floor division by 256), offset, truncation to 8 bits. -/
def conv8 (s : Int) : Int := (Int.fdiv s 256 + 128) % 256

/-- `((left + right) >> 9) + 128` stored into a `uint8_t`. -/
def conv8m (l r : Int) : Int := (Int.fdiv (l + r) 512 + 128) % 256

/-- The stereo loop body, iterated: at step `k` it reads sample `k`
(bytes `2k`, `2k+1`) and stores the converted byte at offset `k`. -/
def sbStereoGo : Nat → Nat → (Nat → Int) → (Nat → Int)
  | _, 0, mem => mem
  | k, n + 1, mem => sbStereoGo (k + 1) n (writeByte mem k (conv8 (readS16 mem k)))

/-- The mono loop body, iterated: at step `k` it reads samples `2k` and
`2k+1` (bytes `4k..4k+3`) and stores the converted byte at offset `k`. -/
def sbMonoGo : Nat → Nat → (Nat → Int) → (Nat → Int)
  | _, 0, mem => mem
  | k, n + 1, mem =>
      sbMonoGo (k + 1) n
        (writeByte mem k (conv8m (readS16 mem (2 * k)) (readS16 mem (2 * k + 1))))

/-- Negotiated SoundBlaster hardware mode, from `sb.caps`:
`SBMODE_16BITS` set, else `SBMODE_STEREO` set, else 8-bit mono. -/
inductive SBMode where
  | bits16
  | stereo8
  | mono8

/-- Embedding of the format-conversion prologue of `write_sb_output`:
returns the buffer after the in-place conversion together with the
updated `siz`.  The 16-bit branch does nothing; the 8-bit branches run
`siz/2 + 1` (resp. `siz/4 + 1`) iterations, as the C `for (; i >= 0; --i)`
loops do. -/
def write_sb_convert : SBMode → (Nat → Int) → Nat → (Nat → Int) × Nat
  | .bits16, mem, siz => (mem, siz)
  | .stereo8, mem, siz => (sbStereoGo 0 (siz / 2 + 1) mem, siz / 2)
  | .mono8, mem, siz => (sbMonoGo 0 (siz / 4 + 1) mem, siz / 4)

/-- A concrete 4-byte buffer holding the `int16_t` samples 1000 and
-1000 in little-endian byte order. -/
def sampleBuf : Nat → Int :=
  fun a =>
    if a = 0 then 232 else if a = 1 then 3
    else if a = 2 then 24 else if a = 3 then 252 else 0

/-! ## Legacy DMA backend: `pause_sb_output` and `open_sb_output`
(out_dossb.c lines 124-132 and 143-177) -/

/-- `memset(buf, v, size)` over the whole buffer, buffers as byte lists. -/
def memset (buf : List Int) (v : Int) : List Int :=
  List.replicate buf.length v

/-- Embedding of `pause_sb_output`: fills the entire DMA buffer
(`sb.dma_buff->linear`, `sb.dma_buff->size` bytes) with 0 in 16-bit mode
and with 0x80 in 8-bit mode. -/
def pause_sb_output (bits16 : Bool) (buf : List Int) : List Int :=
  if bits16 then memset buf 0 else memset buf 0x80

/-- The SoundBlaster device state consulted by `open_sb_output`.  The
`caps` bit tests (`SBMODE_16BITS`, `SBMODE_STEREO`, from the dossb.h
header that is not part of this repository) are modelled as the two
Booleans they decide; `open_ok` and `dma_ok` stand for the outcomes of
`sb_open()` and `sb_start_dma(...)`. -/
structure SBDevice where
  stereo : Bool
  bits16 : Bool
  maxfreq_stereo : Nat
  maxfreq_mono : Nat
  open_ok : Bool
  dma_ok : Bool

/-- Embedding of `open_sb_output` (out_dossb.c lines 143-177): returns
the C return value together with the final value of the caller's `*rate`.
The rate is raised to 4000 when below, then lowered to the mode-dependent
device maximum when above. -/
def open_sb_output (sb : SBDevice) (rate : Nat) : Int × Nat :=
  if !sb.open_ok then (-1, rate)
  else
    let r1 := if rate < 4000 then 4000 else rate
    let r2 :=
      if sb.stereo then
        if r1 > sb.maxfreq_stereo then sb.maxfreq_stereo else r1
      else
        if r1 > sb.maxfreq_mono then sb.maxfreq_mono else r1
    if !sb.dma_ok then (-1, r2) else (0, r2)

/-! ## POSIX (ALSA) backend: `write_alsa_output` (out_alsa.c)

The OS side (`snd_pcm_writei` and the stream state at each failure) is
modelled as a trace of responses; each loop iteration consumes one.
`bpf` is the bytes-per-frame factor realised by `snd_pcm_bytes_to_frames`
/ `snd_pcm_frames_to_bytes` (4 for 16-bit stereo). -/

/-- One response of the OS to `snd_pcm_writei`: success with a frame
count (`err ≥ 0`), failure with the stream in the XRUN (underrun) state,
or failure with any other error code. -/
inductive AlsaResp where
  | ok (frames : Nat)
  | errXrun
  | errOther (e : Int)
deriving DecidableEq

/-- Embedding of the `write_alsa_output` loop (out_alsa.c lines 172-197).
`pos` is how many bytes of the caller's buffer have been accepted so far
(the code's `output_data` pointer minus its start; `size - pos` is the
code's remaining `output_size`).  Returns `none` when the response trace
is exhausted with data still pending, else the C return value together
with the chunks (offset, byte count) of the caller's buffer accepted by
the OS, in submission order. -/
def write_alsa_output (bpf size : Nat) :
    List AlsaResp → Nat → Option (Int × List (Nat × Nat))
  | [], pos => if size ≤ pos then some (0, []) else none
  | resp :: rest, pos =>
    if size ≤ pos then some (0, [])
    else
      match resp with
      | .ok n =>
        -- output_size -= frames_to_bytes(err); output_data += frames_to_bytes(err);
        (write_alsa_output bpf size rest (pos + n * bpf)).map
          fun rc => (rc.1, (pos, n * bpf) :: rc.2)
      | .errXrun =>
        -- XRUN: snd_pcm_prepare(pcm); continue;  (same data, same position)
        write_alsa_output bpf size rest pos
      | .errOther e =>
        -- any other error: return err;
        some (e, [])

/-- The chunk list is consecutive starting at `p`: each chunk begins
where the previous one ended (no byte lost, duplicated or reordered). -/
def chunksFrom : Nat → List (Nat × Nat) → Prop
  | _, [] => True
  | p, c :: cs => c.1 = p ∧ chunksFrom (p + c.2) cs

/-- End position of a consecutive chunk list started at `p`. -/
def chunksEnd : Nat → List (Nat × Nat) → Nat
  | p, [] => p
  | _, c :: cs => chunksEnd (c.1 + c.2) cs

/-! ## OS-Mixer (DART) backend (out_dart.c) -/

/-- Observable actions of one `write_dart_output` call: `pmixWrite`
submission of a slot with a byte length, and a `memcpy` into a slot at an
offset with a byte length. -/
inductive DartEvent where
  | submit (slot len : Nat)
  | copy (slot ofs len : Nat)
deriving DecidableEq

/-- The busy-wait loop of `write_dart_output` (out_dart.c lines 165-173):
spins (sleeping 20 ms per round) until `ready != 0`.  Concurrency is
modelled by `arrivals`: the value the completion callback has raised
`ready` to by the time of each successive re-check.  Returns the `ready`
value observed on exit, or `none` if the callback never fires. -/
def dartWait : List Nat → Nat → Option Nat
  | _, r + 1 => some (r + 1)
  | a :: rest, 0 => dartWait rest a
  | [], 0 => none

/-- Result of one `write_dart_output` call: the events issued and the
final values of the statics `idx`, `next` and `ready`. -/
structure DartCall where
  events : List DartEvent
  idx : Nat
  next : Nat
  ready : Nat
deriving DecidableEq

/-- Embedding of `write_dart_output` (out_dart.c lines 161-187).  `bsize`
is the slot capacity; `idx`, `next`, `ready` are the entry values of the
statics; `sz` is `output_size`.  `none` means the call blocks forever in
the busy-wait. -/
def write_dart_output (bsize : Nat) (arrivals : List Nat)
    (idx next ready sz : Nat) : Option DartCall :=
  if bsize < idx + sz then
    match dartWait arrivals ready with
    | none => none
    | some r =>
      -- MixBuffers[next].ulBufferLength = idx; pmixWrite(.., &MixBuffers[next], 1);
      -- ready--; next++; idx = 0; if (next == BUFFERCOUNT) next = 0;
      let n1 := if next + 1 = 4 then 0 else next + 1
      -- memcpy(&MixBuffers[next].pBuffer[idx], output_data, output_size); idx += ..
      some ⟨[.submit next idx, .copy n1 0 sz], sz, n1, r - 1⟩
  else
    some ⟨[.copy next idx sz], idx + sz, next, ready⟩

/-- The copies a `write_dart_output` call performs. -/
def dartCopies (l : List DartEvent) : List (Nat × Nat × Nat) :=
  l.filterMap fun e =>
    match e with
    | .copy s o n => some (s, o, n)
    | _ => none

/-- Ghost-instrumented shared state of the DART backend: the statics
`idx`, `next`, `ready`, plus the number of buffers currently submitted to
the OS mixer and not yet completed (the count of outstanding `pmixWrite`
slots, a ghost quantity the C code does not store explicitly). -/
structure DartSt where
  idx : Nat
  next : Nat
  ready : Nat
  submitted : Nat
deriving DecidableEq

/-- The state `open_dart_output` establishes: statics `next = 2`,
`ready = 1`, `idx = 0`, and two zeroed buffers handed to `pmixWrite`. -/
def dartInit : DartSt := ⟨0, 2, 1, 2⟩

/-- Interleaved atomic steps of the writer and of the OS completion
callback `OS2_Dart_UpdateBuffers`:
* `writeFit`: a `write_dart_output` call whose payload fits the current
  slot (only `idx` advances);
* `writeFlush`: a call that overflows the slot; it is enabled only once
  the busy-wait has observed `ready ≠ 0`, submits the current slot,
  decrements `ready` and rotates to the next slot;
* `callback`: `OS2_Dart_UpdateBuffers` invoked for a completed submitted
  buffer with `MIX_WRITE_COMPLETE` (or write-complete plus underrun
  stream error), which increments `ready` under the mutex. -/
inductive DartStep (bsize : Nat) : DartSt → DartSt → Prop where
  | writeFit (s : DartSt) (sz : Nat) :
      s.idx + sz ≤ bsize →
      DartStep bsize s ⟨s.idx + sz, s.next, s.ready, s.submitted⟩
  | writeFlush (s : DartSt) (sz : Nat) :
      bsize < s.idx + sz → s.ready ≠ 0 →
      DartStep bsize s
        ⟨sz, if s.next + 1 = 4 then 0 else s.next + 1, s.ready - 1, s.submitted + 1⟩
  | callback (s : DartSt) :
      s.submitted ≠ 0 →
      DartStep bsize s ⟨s.idx, s.next, s.ready + 1, s.submitted - 1⟩

/-- Reachability from the post-`open` state under any interleaving. -/
def DartReachable (bsize : Nat) (s : DartSt) : Prop :=
  Relation.ReflTransGen (DartStep bsize) dartInit s

/-- Embedding of the buffer-size computation of `open_dart_output`
(out_dart.c lines 81-92): `bsize = (*rate >> 2) << 1 << 1`, then the scan
`for (i = 15; i >= 12; i--) if (bsize & (1 << i)) break;` (which leaves
`i = 11` when no bit in 15..12 is set), then `bsize = 1 << i`, then the
64 KiB cap. -/
def open_dart_bsize (rate : Nat) : Nat :=
  let b := rate >>> 2 <<< 1 <<< 1
  let i : Nat :=
    if b.testBit 15 then 15
    else if b.testBit 14 then 14
    else if b.testBit 13 then 13
    else if b.testBit 12 then 12
    else 11
  let b2 := 1 <<< i
  if b2 > 65536 then 65536 else b2

/-- The buffer size as the specification words it (claim C5): the byte
count of a quarter second of stereo 16-bit audio, `4 * (rate / 4)`,
rounded down to the nearest power of two, capped at 65536.  (This
definition follows the claim, not the source; it is the comparison point
for the refutation of C5.) -/
def dart_bsize_claimed (rate : Nat) : Nat :=
  min (2 ^ Nat.log2 (4 * (rate / 4))) 65536

/-! ## Close operations (out_alsa.c lines 199-205, out_dart.c 189-201) -/

/-- Resource-release actions a close call can perform. -/
inductive CloseAct where
  | alsaClose
  | dartDealloc
  | dartClose
deriving DecidableEq

/-- Embedding of `close_alsa_output`: `pcm` is whether the stream handle
is non-null; returns the new handle state and the actions performed. -/
def close_alsa_output (pcm : Bool) : Bool × List CloseAct :=
  if !pcm then (pcm, [])
  else (false, [.alsaClose])

/-- Embedding of `close_dart_output`: `pBuffer` is whether the marker
`MixBuffers[0].pBuffer` is non-null, `deviceID` the value of `DeviceID`.
Returns the new (marker, device id) state and the actions performed. -/
def close_dart_output (pBuffer : Bool) (deviceID : Nat) :
    (Bool × Nat) × List CloseAct :=
  let s1 : Bool × List CloseAct :=
    if pBuffer then (false, [.dartDealloc]) else (pBuffer, [])
  let s2 : Nat × List CloseAct :=
    if deviceID ≠ 0 then (0, [.dartClose]) else (deviceID, [])
  ((s1.1, s2.1), s1.2 ++ s2.2)

/-! # Theorems -/

/-- C1: in every `write_sb_common` call with an aligned observed read
position, the total number of bytes copied never exceeds the free span
between `buff_tail` and `dma_pos`, at most two contiguous copies are
issued, and no copied byte lands at an offset inside the unread region
`[dma_pos, buff_tail)` modulo `dma_size`. -/
theorem sb_write_no_overwrite (bt ds dp siz : Nat)
    (hbt : bt ≤ ds) (hal : dp % 256 = 0) :
    ((write_sb_common bt ds dp siz).spans.map Prod.snd).sum ≤ sbFreeSpan bt ds dp ∧
    (write_sb_common bt ds dp siz).spans.length ≤ 2 ∧
    ∀ p ∈ (write_sb_common bt ds dp siz).spans, ∀ a, p.1 ≤ a → a < p.1 + p.2 →
      ¬ sbUnread bt ds dp a := by
  have hmask : dp / 256 * 256 = dp := Nat.div_mul_cancel (Nat.dvd_of_mod_eq_zero hal)
  unfold write_sb_common
  rw [hmask]
  by_cases h1 : bt = dp
  · simp [h1, sbUnread]
  · by_cases h2 : dp > bt
    · -- not wrapped: one span [bt, bt + cnt) with cnt ≤ dp - bt
      simp only [if_neg h1, if_pos h2, sbFreeSpan, List.map_cons, List.map_nil,
        List.sum_cons, List.sum_nil, List.mem_cons, List.not_mem_nil, or_false,
        List.length_cons, List.length_nil]
      refine ⟨by omega, by omega, ?_⟩
      rintro p rfl a ha1 ha2
      unfold sbUnread
      split_ifs <;> omega
    · -- wrapped: spans [bt, bt+cnt) and possibly [0, d) with d ≤ dp
      simp only [if_neg h1, if_neg h2, sbFreeSpan]
      by_cases h3 : siz - min (ds - bt) siz = 0
      · simp only [if_pos h3, List.map_cons, List.map_nil, List.sum_cons,
          List.sum_nil, List.mem_cons, List.not_mem_nil, or_false,
          List.length_cons, List.length_nil]
        refine ⟨by omega, by omega, ?_⟩
        rintro p rfl a ha1 ha2
        unfold sbUnread
        split_ifs <;> omega
      · simp only [if_neg h3, List.map_cons, List.map_nil, List.sum_cons,
          List.sum_nil, List.mem_cons, List.not_mem_nil, or_false,
          List.length_cons, List.length_nil]
        refine ⟨by omega, by omega, ?_⟩
        rintro p (rfl | rfl) a ha1 ha2 <;>
        · unfold sbUnread
          split_ifs <;> omega

/-- Witness for `sb_write_no_overwrite` at a concrete call. -/
theorem sb_write_no_overwrite_witness :
    ((0 : Nat) ≤ 1024 ∧ 512 % 256 = 0) ∧
    (((write_sb_common 0 1024 512 300).spans.map Prod.snd).sum ≤ sbFreeSpan 0 1024 512 ∧
     (write_sb_common 0 1024 512 300).spans.length ≤ 2 ∧
     ∀ p ∈ (write_sb_common 0 1024 512 300).spans, ∀ a, p.1 ≤ a → a < p.1 + p.2 →
       ¬ sbUnread 0 1024 512 a) :=
  ⟨by decide, sb_write_no_overwrite 0 1024 512 300 (by decide) (by decide)⟩

/-- Offsets below the loop counter are never touched again (stereo loop). -/
theorem sbStereoGo_lt (n : Nat) : ∀ (k : Nat) (mem : Nat → Int) (a : Nat),
    a < k → sbStereoGo k n mem a = mem a := by
  induction n with
  | zero => intro k mem a _; rfl
  | succ n ih =>
      intro k mem a ha
      unfold sbStereoGo
      rw [ih (k + 1) _ a (by omega)]
      unfold writeByte
      rw [if_neg (by omega)]

/-- The stereo loop writes, at every offset `j` it covers, the conversion
of the *original* sample `j`: the in-place loop never reads a byte it has
already overwritten (writes go to offsets `< j`, reads to `2j, 2j+1 ≥ j`). -/
theorem sbStereoGo_spec (n : Nat) :
    ∀ (k : Nat) (mem orig : Nat → Int), (∀ a, k ≤ a → mem a = orig a) →
    ∀ j, k ≤ j → j < k + n → sbStereoGo k n mem j = conv8 (readS16 orig j) := by
  induction n with
  | zero => intro k mem orig _ j h1 h2; omega
  | succ n ih =>
      intro k mem orig hagree j h1 h2
      unfold sbStereoGo
      have hread : readS16 mem k = readS16 orig k := by
        unfold readS16
        rw [hagree (2 * k) (by omega), hagree (2 * k + 1) (by omega)]
      have hagree2 : ∀ a, k + 1 ≤ a →
          writeByte mem k (conv8 (readS16 mem k)) a = orig a := by
        intro a ha
        unfold writeByte
        rw [if_neg (by omega)]
        exact hagree a (by omega)
      rcases Nat.eq_or_lt_of_le h1 with rfl | hlt
      · rw [sbStereoGo_lt n (k + 1) _ k (by omega)]
        unfold writeByte
        rw [if_pos rfl, hread]
      · exact ih (k + 1) _ orig hagree2 j (by omega) (by omega)

/-- Offsets below the loop counter are never touched again (mono loop). -/
theorem sbMonoGo_lt (n : Nat) : ∀ (k : Nat) (mem : Nat → Int) (a : Nat),
    a < k → sbMonoGo k n mem a = mem a := by
  induction n with
  | zero => intro k mem a _; rfl
  | succ n ih =>
      intro k mem a ha
      unfold sbMonoGo
      rw [ih (k + 1) _ a (by omega)]
      unfold writeByte
      rw [if_neg (by omega)]

/-- The mono loop writes, at every offset `j` it covers, the conversion of
the *original* sample pair `2j, 2j+1`. -/
theorem sbMonoGo_spec (n : Nat) :
    ∀ (k : Nat) (mem orig : Nat → Int), (∀ a, k ≤ a → mem a = orig a) →
    ∀ j, k ≤ j → j < k + n →
      sbMonoGo k n mem j = conv8m (readS16 orig (2 * j)) (readS16 orig (2 * j + 1)) := by
  induction n with
  | zero => intro k mem orig _ j h1 h2; omega
  | succ n ih =>
      intro k mem orig hagree j h1 h2
      unfold sbMonoGo
      have hread1 : readS16 mem (2 * k) = readS16 orig (2 * k) := by
        unfold readS16
        rw [hagree (2 * (2 * k)) (by omega), hagree (2 * (2 * k) + 1) (by omega)]
      have hread2 : readS16 mem (2 * k + 1) = readS16 orig (2 * k + 1) := by
        unfold readS16
        rw [hagree (2 * (2 * k + 1)) (by omega), hagree (2 * (2 * k + 1) + 1) (by omega)]
      have hagree2 : ∀ a, k + 1 ≤ a →
          writeByte mem k (conv8m (readS16 mem (2 * k)) (readS16 mem (2 * k + 1))) a
            = orig a := by
        intro a ha
        unfold writeByte
        rw [if_neg (by omega)]
        exact hagree a (by omega)
      rcases Nat.eq_or_lt_of_le h1 with rfl | hlt
      · rw [sbMonoGo_lt n (k + 1) _ k (by omega)]
        unfold writeByte
        rw [if_pos rfl, hread1, hread2]
      · exact ih (k + 1) _ orig hagree2 j (by omega) (by omega)

/-- For a genuine `int16_t` sample value, the `uint8_t` truncation in
`(s >> 8) + 128` is the identity. -/
theorem conv8_eq (s : Int) (h1 : -32768 ≤ s) (h2 : s < 32768) :
    conv8 s = Int.fdiv s 256 + 128 := by
  unfold conv8
  rw [Int.fdiv_eq_ediv s (by omega)]
  have hd := Int.ediv_add_emod s 256
  have hm1 := Int.emod_nonneg s (show (256 : Int) ≠ 0 by omega)
  have hm2 := Int.emod_lt_of_pos s (show (0 : Int) < 256 by omega)
  exact Int.emod_eq_of_lt (by omega) (by omega)

/-- For a genuine pair of `int16_t` samples, the `uint8_t` truncation in
`((left + right) >> 9) + 128` is the identity. -/
theorem conv8m_eq (l r : Int) (h1 : -32768 ≤ l) (h2 : l < 32768)
    (h3 : -32768 ≤ r) (h4 : r < 32768) :
    conv8m l r = Int.fdiv (l + r) 512 + 128 := by
  unfold conv8m
  rw [Int.fdiv_eq_ediv (l + r) (by omega)]
  have hd := Int.ediv_add_emod (l + r) 512
  have hm1 := Int.emod_nonneg (l + r) (show (512 : Int) ≠ 0 by omega)
  have hm2 := Int.emod_lt_of_pos (l + r) (show (0 : Int) < 512 by omega)
  exact Int.emod_eq_of_lt (by omega) (by omega)

/-- A signed 16-bit read of a byte map with in-range bytes is an
`int16_t` value. -/
theorem readS16_bounds (mem : Nat → Int) (k : Nat)
    (hb : ∀ a, 0 ≤ mem a ∧ mem a < 256) :
    -32768 ≤ readS16 mem k ∧ readS16 mem k < 32768 := by
  unfold readS16
  have h1 := hb (2 * k)
  have h2 := hb (2 * k + 1)
  split_ifs <;> omega

/-- C3: the in-place down-conversion of `write_sb_output` is bit-exact.
In 8-bit-stereo mode the effective size becomes `siz/2` and every byte
`j < siz/2` of the output is `(s_j >> 8) + 128` for input sample `s_j`;
in 8-bit-mono mode the effective size becomes `siz/4` and every byte
`j < siz/4` is `((left_j + right_j) >> 9) + 128`; in 16-bit-stereo mode
the data and size pass through unchanged. -/
theorem sb_convert_bit_exact (mem : Nat → Int) (siz : Nat)
    (hb : ∀ a, 0 ≤ mem a ∧ mem a < 256) :
    write_sb_convert .bits16 mem siz = (mem, siz) ∧
    ((write_sb_convert .stereo8 mem siz).2 = siz / 2 ∧
      ∀ j, j < siz / 2 → (write_sb_convert .stereo8 mem siz).1 j =
        Int.fdiv (readS16 mem j) 256 + 128) ∧
    ((write_sb_convert .mono8 mem siz).2 = siz / 4 ∧
      ∀ j, j < siz / 4 → (write_sb_convert .mono8 mem siz).1 j =
        Int.fdiv (readS16 mem (2 * j) + readS16 mem (2 * j + 1)) 512 + 128) := by
  refine ⟨rfl, ⟨rfl, ?_⟩, ⟨rfl, ?_⟩⟩
  · intro j hj
    show sbStereoGo 0 (siz / 2 + 1) mem j = _
    rw [sbStereoGo_spec (siz / 2 + 1) 0 mem mem (fun a _ => rfl) j (by omega) (by omega)]
    have hbnd := readS16_bounds mem j hb
    exact conv8_eq _ hbnd.1 hbnd.2
  · intro j hj
    show sbMonoGo 0 (siz / 4 + 1) mem j = _
    rw [sbMonoGo_spec (siz / 4 + 1) 0 mem mem (fun a _ => rfl) j (by omega) (by omega)]
    have hl := readS16_bounds mem (2 * j) hb
    have hr := readS16_bounds mem (2 * j + 1) hb
    exact conv8m_eq _ _ hl.1 hl.2 hr.1 hr.2

/-- Witness for `sb_convert_bit_exact`: on a buffer holding samples
1000 and -1000, the stereo path yields bytes 131 = (1000 >> 8) + 128 and
124 = (-1000 >> 8) + 128, and the mono path averages the pair to 128. -/
theorem sb_convert_bit_exact_witness :
    (write_sb_convert .stereo8 sampleBuf 4).1 0 = 131 ∧
    (write_sb_convert .stereo8 sampleBuf 4).1 1 = 124 ∧
    (write_sb_convert .mono8 sampleBuf 4).1 0 = 128 := by
  have hb : ∀ a, 0 ≤ sampleBuf a ∧ sampleBuf a < 256 := by
    intro a
    unfold sampleBuf
    split_ifs <;> omega
  have h := sb_convert_bit_exact sampleBuf 4 hb
  refine ⟨?_, ?_, ?_⟩
  · rw [h.2.1.2 0 (by omega)]; decide
  · rw [h.2.1.2 1 (by omega)]; decide
  · rw [h.2.2.2 0 (by omega)]; decide

/-- Generalisation of the C2 claim over the current position: a finished
`write_alsa_output` loop either returns 0 with the accepted chunks tiling
`[pos, size)` consecutively, or returns the code of an `errOther`
response it encountered. -/
theorem alsa_go (bpf size : Nat) :
    ∀ (resps : List AlsaResp) (pos : Nat) (r : Int) (cs : List (Nat × Nat)),
    (∀ e, AlsaResp.errOther e ∈ resps → e < 0) →
    write_alsa_output bpf size resps pos = some (r, cs) →
    (r = 0 → chunksFrom pos cs ∧ size ≤ chunksEnd pos cs) ∧
    (r ≠ 0 → AlsaResp.errOther r ∈ resps) := by
  intro resps
  induction resps with
  | nil =>
      intro pos r cs _ h
      unfold write_alsa_output at h
      split_ifs at h with hle
      · rw [Option.some.injEq, Prod.mk.injEq] at h
        obtain ⟨rfl, rfl⟩ := h
        exact ⟨fun _ => ⟨trivial, hle⟩, fun hr => absurd rfl hr⟩
  | cons resp rest ih =>
      intro pos r cs hwf h
      have hwfr : ∀ e, AlsaResp.errOther e ∈ rest → e < 0 :=
        fun e he => hwf e (List.mem_cons_of_mem _ he)
      unfold write_alsa_output at h
      split_ifs at h with hle
      · rw [Option.some.injEq, Prod.mk.injEq] at h
        obtain ⟨rfl, rfl⟩ := h
        exact ⟨fun _ => ⟨trivial, hle⟩, fun hr => absurd rfl hr⟩
      · cases resp with
        | ok n =>
            replace h : Option.map (fun rc => (rc.1, (pos, n * bpf) :: rc.2))
                (write_alsa_output bpf size rest (pos + n * bpf)) = some (r, cs) := h
            cases hrec : write_alsa_output bpf size rest (pos + n * bpf) with
            | none => rw [hrec] at h; exact absurd h (by simp)
            | some rc =>
                rw [hrec] at h
                simp only [Option.map_some', Option.some.injEq, Prod.mk.injEq] at h
                obtain ⟨rfl, rfl⟩ := h
                have ihr := ih (pos + n * bpf) rc.1 rc.2 hwfr hrec
                constructor
                · intro hr0
                  have h2 := ihr.1 hr0
                  exact ⟨⟨rfl, h2.1⟩, h2.2⟩
                · intro hr
                  exact List.mem_cons_of_mem _ (ihr.2 hr)
        | errXrun =>
            replace h : write_alsa_output bpf size rest pos = some (r, cs) := h
            have ihr := ih pos r cs hwfr h
            exact ⟨ihr.1, fun hr => List.mem_cons_of_mem _ (ihr.2 hr)⟩
        | errOther e =>
            replace h : (some (e, ([] : List (Nat × Nat))) : Option (Int × List (Nat × Nat)))
                = some (r, cs) := h
            rw [Option.some.injEq, Prod.mk.injEq] at h
            obtain ⟨h1, h2⟩ := h
            have he : e < 0 := hwf e (List.mem_cons_self _ _)
            constructor
            · intro hr0
              exact absurd (h1.trans hr0) (by omega)
            · intro _
              rw [← h1]
              exact List.mem_cons_self _ _

/-- C2: the `write_alsa_output` loop (a) on return value 0 has had every
byte of the caller's `size`-byte buffer accepted by the OS, in order,
with no gap and no duplication; (b) on a nonzero return value, that value
is the error code of a non-XRUN submission failure in the trace (so any
such OS error propagates to the caller); and (c) on an XRUN failure the
loop retries at the same buffer position, dropping nothing.  The odd
`r = 0` case of (a) arising from an `errOther 0` response cannot occur:
the OS only reports errors by negative codes (`hwf`). -/
theorem alsa_write_correct (bpf size : Nat) (resps : List AlsaResp)
    (r : Int) (cs : List (Nat × Nat))
    (hwf : ∀ e, AlsaResp.errOther e ∈ resps → e < 0)
    (h : write_alsa_output bpf size resps 0 = some (r, cs)) :
    (r = 0 → chunksFrom 0 cs ∧ size ≤ chunksEnd 0 cs) ∧
    (r ≠ 0 → AlsaResp.errOther r ∈ resps ∧ r < 0) ∧
    (∀ (rest : List AlsaResp) (pos : Nat), pos < size →
      write_alsa_output bpf size (.errXrun :: rest) pos =
        write_alsa_output bpf size rest pos) := by
  have hg := alsa_go bpf size resps 0 r cs hwf h
  refine ⟨hg.1, fun hr => ⟨hg.2 hr, hwf r (hg.2 hr)⟩, ?_⟩
  intro rest pos hpos
  rw [write_alsa_output, if_neg (by omega)]

/-- Witness for `alsa_write_correct`: a 16-byte buffer delivered in two
8-byte chunks with an XRUN retried in between. -/
theorem alsa_write_correct_witness :
    write_alsa_output 4 16 [.ok 2, .errXrun, .ok 2] 0 = some (0, [(0, 8), (8, 8)]) ∧
    (chunksFrom 0 [(0, 8), (8, 8)] ∧ 16 ≤ chunksEnd 0 [(0, 8), (8, 8)]) := by
  have hwf : ∀ e, AlsaResp.errOther e ∈
      [AlsaResp.ok 2, AlsaResp.errXrun, AlsaResp.ok 2] → e < 0 := by
    intro e he
    simp only [List.mem_cons, List.not_mem_nil, or_false] at he
    rcases he with he | he | he <;> exact absurd he (by simp)
  have hres : write_alsa_output 4 16 [.ok 2, .errXrun, .ok 2] 0 =
      some (0, [(0, 8), (8, 8)]) := by decide
  exact ⟨hres,
    (alsa_write_correct 4 16 [.ok 2, .errXrun, .ok 2] 0 [(0, 8), (8, 8)] hwf hres).1 rfl⟩

/-- The busy-wait of `write_dart_output` only ever exits having observed
a nonzero `ready`. -/
theorem dartWait_exit (l : List Nat) : ∀ r r', dartWait l r = some r' → r' ≠ 0 := by
  induction l with
  | nil =>
      intro r r' h
      cases r with
      | zero => simp [dartWait] at h
      | succ n => simp only [dartWait, Option.some.injEq] at h; omega
  | cons a rest ih =>
      intro r r' h
      cases r with
      | zero => exact ih a r' (by simpa [dartWait] using h)
      | succ n => simp only [dartWait, Option.some.injEq] at h; omega

/-- C4: when the payload would overflow the current slot, a
`write_dart_output` call first waits until `ready` is nonzero, then
submits the current slot `next` for playback with its fill length `idx`,
decrements `ready`, advances the slot index modulo the buffer count 4,
resets the fill offset to 0, and copies the caller's whole payload into
the new current slot at offset 0 (leaving `idx = sz`). -/
theorem dart_write_rotation (bsize : Nat) (arrivals : List Nat)
    (idx next ready sz r : Nat)
    (hov : bsize < idx + sz) (hnext : next < 4)
    (hw : dartWait arrivals ready = some r) :
    r ≠ 0 ∧
    write_dart_output bsize arrivals idx next ready sz =
      some ⟨[.submit next idx, .copy ((next + 1) % 4) 0 sz],
        sz, (next + 1) % 4, r - 1⟩ := by
  refine ⟨dartWait_exit arrivals ready r hw, ?_⟩
  unfold write_dart_output
  rw [if_pos hov, hw]
  have hmod : (if next + 1 = 4 then 0 else next + 1) = (next + 1) % 4 := by
    split_ifs with h4
    · omega
    · omega
  rw [hmod]

/-- Witness for `dart_write_rotation` at a concrete overflowing call. -/
theorem dart_write_rotation_witness :
    ((16 : Nat) < 10 + 8 ∧ (3 : Nat) < 4 ∧ dartWait [] 1 = some 1) ∧
    ((1 : Nat) ≠ 0 ∧
      write_dart_output 16 [] 10 3 1 8 =
        some ⟨[.submit 3 10, .copy ((3 + 1) % 4) 0 8], 8, (3 + 1) % 4, 1 - 1⟩) :=
  ⟨by decide, dart_write_rotation 16 [] 10 3 1 8 1 (by decide) (by decide) (by decide)⟩

/-- C10: a `write_dart_output` call that does not block forever performs
exactly one contiguous `memcpy`, of the whole `sz`-byte payload, into a
single slot — either at the current fill offset of the current slot or at
offset 0 of the freshly rotated slot; the copy stays within the slot's
`bsize` capacity whenever `sz ≤ bsize` (given the entry fill offset is
consistent, which the non-overflow branch guarantees by itself), and for
a payload larger than one slot the copy necessarily exceeds the slot
capacity. -/
theorem dart_write_single_copy (bsize : Nat) (arrivals : List Nat)
    (idx next ready sz : Nat) (c : DartCall)
    (h : write_dart_output bsize arrivals idx next ready sz = some c) :
    ∃ slot ofs, dartCopies c.events = [(slot, ofs, sz)] ∧
      ((slot = next ∧ ofs = idx) ∨ ofs = 0) ∧
      (sz ≤ bsize → ofs + sz ≤ bsize) ∧
      (bsize < sz → bsize < ofs + sz) := by
  unfold write_dart_output at h
  by_cases hov : bsize < idx + sz
  · rw [if_pos hov] at h
    cases hwv : dartWait arrivals ready with
    | none => rw [hwv] at h; exact absurd h (by simp)
    | some r =>
        rw [hwv] at h
        replace h : some (DartCall.mk
            [.submit next idx, .copy (if next + 1 = 4 then 0 else next + 1) 0 sz]
            sz (if next + 1 = 4 then 0 else next + 1) (r - 1)) = some c := h
        rw [Option.some.injEq] at h
        subst h
        refine ⟨_, 0, rfl, Or.inr rfl, fun hsz => by omega, fun hlt => by omega⟩
  · rw [if_neg hov] at h
    replace h : some (DartCall.mk [.copy next idx sz] (idx + sz) next ready) = some c := h
    rw [Option.some.injEq] at h
    subst h
    exact ⟨next, idx, rfl, Or.inl ⟨rfl, rfl⟩, fun _ => by omega, fun hlt => by omega⟩

/-- Witness for `dart_write_single_copy` at a concrete fitting call. -/
theorem dart_write_single_copy_witness :
    write_dart_output 16 [] 4 2 1 8 = some ⟨[.copy 2 4 8], 12, 2, 1⟩ ∧
    (∃ slot ofs, dartCopies (DartCall.mk [.copy 2 4 8] 12 2 1).events = [(slot, ofs, 8)] ∧
      ((slot = 2 ∧ ofs = 4) ∨ ofs = 0) ∧
      (8 ≤ 16 → ofs + 8 ≤ 16) ∧
      (16 < 8 → 16 < ofs + 8)) :=
  ⟨by decide, dart_write_single_copy 16 [] 4 2 1 8 (DartCall.mk [.copy 2 4 8] 12 2 1) (by decide)⟩

/-- Counterexample to C6 as stated: already in the state established by
`open_dart_output` (reachable by the empty interleaving) the ready count
plus the submitted-slot count is 1 + 2 = 3, not the total slot count 4. -/
theorem dart_conservation_counterexample :
    DartReachable 16 dartInit ∧ dartInit.ready + dartInit.submitted ≠ 4 :=
  ⟨Relation.ReflTransGen.refl, by decide⟩

/-- C6 (amended): across every interleaving of write steps and
completion-callback invocations from the state established by
`open_dart_output`, the ready count plus the count of slots currently
submitted to the OS mixer sums to 3 — the total slot count 4 minus the
one slot the writer always holds as its current fill slot. -/
theorem dart_ready_conservation (bsize : Nat) (s : DartSt)
    (h : DartReachable bsize s) : s.ready + s.submitted = 3 := by
  unfold DartReachable at h
  induction h with
  | refl => rfl
  | tail _ step ih =>
      cases step with
      | writeFit sz hfit => dsimp only; omega
      | writeFlush sz hov hr => dsimp only; omega
      | callback hs => dsimp only; omega

/-- Witness for `dart_ready_conservation`: after one flush and one
completion callback the sum is still 3. -/
theorem dart_ready_conservation_witness :
    DartReachable 4 ⟨8, 3, 1, 2⟩ ∧
    (DartSt.mk 8 3 1 2).ready + (DartSt.mk 8 3 1 2).submitted = 3 := by
  have h1 : DartStep 4 dartInit ⟨8, 3, 0, 3⟩ :=
    DartStep.writeFlush dartInit 8 (by decide) (by decide)
  have h2 : DartStep 4 ⟨8, 3, 0, 3⟩ ⟨8, 3, 1, 2⟩ :=
    DartStep.callback ⟨8, 3, 0, 3⟩ (by decide)
  have hreach : DartReachable 4 ⟨8, 3, 1, 2⟩ :=
    Relation.ReflTransGen.head h1 (Relation.ReflTransGen.single h2)
  exact ⟨hreach, dart_ready_conservation 4 ⟨8, 3, 1, 2⟩ hreach⟩

/-- Counterexample to C5 as stated: for the requested rate 131072 the
code computes a 2048-byte slot (no bit in 15..12 of the byte count is
set, so the scan falls through to `i = 11`), while the claimed value —
the quarter-second byte count rounded down to a power of two, capped at
64 KiB — is 65536. -/
theorem dart_bsize_counterexample :
    open_dart_bsize 131072 = 2048 ∧ dart_bsize_claimed 131072 = 65536 ∧
    (2048 : Nat) ≠ 65536 := by
  refine ⟨by decide, ?_, by decide⟩
  have hl : Nat.log2 (4 * (131072 / 4)) = 17 := by
    rw [Nat.log2_eq_log_two]
    exact Nat.log_eq_of_pow_le_of_lt_pow (by norm_num) (by norm_num)
  unfold dart_bsize_claimed
  rw [hl]
  norm_num

/-- C5 (amended): only when the quarter-second byte count `4 * (rate/4)`
lies in `[4096, 65536)` — bits 15..12 are the only ones the scan
examines — does `open_dart_output` compute the largest power of two not
exceeding it; the result then lies in `[4096, 32768]`, so the 64 KiB cap
never takes effect.  (Outside that range the code yields 2048; see the
counterexample.) -/
theorem dart_bsize_amended (rate : Nat)
    (hlo : 4096 ≤ rate / 4 * 4) (hhi : rate / 4 * 4 < 65536) :
    ∃ k, open_dart_bsize rate = 2 ^ k ∧
      2 ^ k ≤ rate / 4 * 4 ∧ rate / 4 * 4 < 2 ^ (k + 1) ∧
      2 ^ k ≤ 32768 := by
  have hb : rate >>> 2 <<< 1 <<< 1 = rate / 4 * 4 := by
    rw [Nat.shiftRight_eq_div_pow, Nat.shiftLeft_eq, Nat.shiftLeft_eq]
    have h4 : (2 : Nat) ^ 2 = 4 := by norm_num
    have h1 : (2 : Nat) ^ 1 = 2 := by norm_num
    rw [h4, h1]
    omega
  unfold open_dart_bsize
  simp only [hb, Nat.one_shiftLeft]
  have t15 : (rate / 4 * 4).testBit 15 = decide (rate / 4 * 4 / 32768 % 2 = 1) := by
    rw [Nat.testBit_to_div_mod]
  have t14 : (rate / 4 * 4).testBit 14 = decide (rate / 4 * 4 / 16384 % 2 = 1) := by
    rw [Nat.testBit_to_div_mod]
  have t13 : (rate / 4 * 4).testBit 13 = decide (rate / 4 * 4 / 8192 % 2 = 1) := by
    rw [Nat.testBit_to_div_mod]
  have t12 : (rate / 4 * 4).testBit 12 = decide (rate / 4 * 4 / 4096 % 2 = 1) := by
    rw [Nat.testBit_to_div_mod]
  by_cases h15 : 32768 ≤ rate / 4 * 4
  · have e : rate / 4 * 4 / 32768 = 1 := by omega
    have hv : (rate / 4 * 4).testBit 15 = true := by rw [t15, e]; rfl
    rw [hv]
    exact ⟨15, by norm_num, by omega, by omega, by norm_num⟩
  · have e1 : rate / 4 * 4 / 32768 = 0 := by omega
    have hv15 : (rate / 4 * 4).testBit 15 = false := by rw [t15, e1]; rfl
    by_cases h14 : 16384 ≤ rate / 4 * 4
    · have e2 : rate / 4 * 4 / 16384 = 1 := by omega
      have hv14 : (rate / 4 * 4).testBit 14 = true := by rw [t14, e2]; rfl
      rw [hv15, hv14]
      exact ⟨14, by norm_num, by omega, by omega, by norm_num⟩
    · have e2 : rate / 4 * 4 / 16384 = 0 := by omega
      have hv14 : (rate / 4 * 4).testBit 14 = false := by rw [t14, e2]; rfl
      by_cases h13 : 8192 ≤ rate / 4 * 4
      · have e3 : rate / 4 * 4 / 8192 = 1 := by omega
        have hv13 : (rate / 4 * 4).testBit 13 = true := by rw [t13, e3]; rfl
        rw [hv15, hv14, hv13]
        exact ⟨13, by norm_num, by omega, by omega, by norm_num⟩
      · have e3 : rate / 4 * 4 / 8192 = 0 := by omega
        have hv13 : (rate / 4 * 4).testBit 13 = false := by rw [t13, e3]; rfl
        have e4 : rate / 4 * 4 / 4096 = 1 := by omega
        have hv12 : (rate / 4 * 4).testBit 12 = true := by rw [t12, e4]; rfl
        rw [hv15, hv14, hv13, hv12]
        exact ⟨12, by norm_num, by omega, by omega, by norm_num⟩

/-- Witness for `dart_bsize_amended` at rate 44100: the slot size is
32768 = 2^15, the largest power of two below 44100. -/
theorem dart_bsize_amended_witness :
    ((4096 : Nat) ≤ 44100 / 4 * 4 ∧ 44100 / 4 * 4 < 65536) ∧
    (∃ k, open_dart_bsize 44100 = 2 ^ k ∧
      2 ^ k ≤ 44100 / 4 * 4 ∧ 44100 / 4 * 4 < 2 ^ (k + 1) ∧
      2 ^ k ≤ 32768) :=
  ⟨by decide, dart_bsize_amended 44100 (by decide) (by decide)⟩

/-- C7: when `sb_open()` succeeds and the DMA transfer starts,
`open_sb_output` returns 0 and leaves in the caller's rate variable the
requested rate raised to at least 4000 Hz and lowered to at most the
device maximum of the negotiated channel mode — i.e. exactly
`min (max rate 4000) maxfreq`. -/
theorem sb_open_clamps_rate (sb : SBDevice) (rate : Nat)
    (hopen : sb.open_ok = true) (hdma : sb.dma_ok = true) :
    open_sb_output sb rate =
      (0, min (max rate 4000)
        (if sb.stereo then sb.maxfreq_stereo else sb.maxfreq_mono)) := by
  unfold open_sb_output
  rw [hopen, hdma]
  simp only [Bool.not_true, Bool.false_eq_true, if_false]
  split_ifs <;> simp <;> omega

/-- Witness for `sb_open_clamps_rate`: requesting 3000 Hz on a stereo
device with a 22050 Hz ceiling succeeds with the rate set to 4000. -/
theorem sb_open_clamps_rate_witness :
    ((SBDevice.mk true true 22050 44100 true true).open_ok = true ∧
     (SBDevice.mk true true 22050 44100 true true).dma_ok = true) ∧
    open_sb_output (SBDevice.mk true true 22050 44100 true true) 3000 =
      (0, min (max 3000 4000)
        (if (SBDevice.mk true true 22050 44100 true true).stereo
         then (SBDevice.mk true true 22050 44100 true true).maxfreq_stereo
         else (SBDevice.mk true true 22050 44100 true true).maxfreq_mono)) :=
  ⟨by decide, sb_open_clamps_rate (SBDevice.mk true true 22050 44100 true true) 3000 rfl rfl⟩

/-- C8: ALSA close is a no-op (no release action) on a null stream
handle and otherwise releases it exactly once and nulls it, so a second
call does nothing; DART close nulls the buffer-pointer marker and zeroes
the device id after releasing, so a second call performs no release
action.  Both are therefore idempotent and safe on never-opened state. -/
theorem close_idempotent :
    (∀ pcm : Bool,
      close_alsa_output false = (false, []) ∧
      (close_alsa_output pcm).1 = false ∧
      (close_alsa_output (close_alsa_output pcm).1).2 = []) ∧
    (∀ (pb : Bool) (dev : Nat),
      close_dart_output false 0 = ((false, 0), []) ∧
      (close_dart_output pb dev).1 = (false, 0) ∧
      (close_dart_output (close_dart_output pb dev).1.1
        (close_dart_output pb dev).1.2).2 = []) := by
  constructor
  · intro pcm
    cases pcm <;> simp [close_alsa_output]
  · intro pb dev
    cases pb <;> by_cases hd : dev = 0 <;> simp [close_dart_output, hd]

/-- C9: `pause_sb_output` overwrites the entire DMA buffer with the
silence value of the negotiated bit depth — byte 0 in 16-bit mode, the
unsigned midpoint 0x80 in 8-bit mode. -/
theorem sb_pause_fills_silence (bits16 : Bool) (buf : List Int) :
    pause_sb_output bits16 buf =
      List.replicate buf.length (if bits16 then 0 else 0x80) := by
  cases bits16 <;> rfl

end WildMidi
